import Mathlib

/-!
Shallow embedding of `clean.py`, a personal disk-cleanup script.

Text (Python `str`) is modelled as `List Char`; `pathlib.Path` objects are
modelled by their path string.  Each subprocess boundary is modelled by a
record carrying the fields of the completed process that the code reads
(`returncode`, `stdout`, `stderr`); the pure post-processing that the script
performs on those fields is translated function by function.  Python integers
are `Nat`/`Int`; `raise` is modelled with `Except`.
-/

abbrev PyStr := List Char

/-- Python `str.isdigit` on the ASCII decimal digits (the only characters the
script's inputs can contain at the positions where it is called). -/
def isDigitChar (c : Char) : Bool := '0' ≤ c && c ≤ '9'

/-- The characters removed by Python `str.strip()` (ASCII whitespace). -/
def isPySpace (c : Char) : Bool :=
  c == ' ' || c == '\t' || c == '\n' || c == '\r' || c == '\x0b' || c == '\x0c'

/-- Python `str.strip()`: remove leading and trailing whitespace. -/
def pyStrip (s : PyStr) : PyStr :=
  ((s.dropWhile isPySpace).reverse.dropWhile isPySpace).reverse

/-- Python `str.split(sep)` for a one-character separator: keeps empty pieces,
and the empty string splits to `[""]`. -/
def splitOnChar (sep : Char) : PyStr → List PyStr
  | [] => [[]]
  | c :: rest =>
    if c = sep then [] :: splitOnChar sep rest
    else
      match splitOnChar sep rest with
      | [] => [[c]]
      | l :: ls => (c :: l) :: ls

/-- Does `s` start with `pre`?  (Used to model regex literal matching.) -/
def beginsWith : PyStr → PyStr → Bool
  | [], _ => true
  | _ :: _, [] => false
  | a :: as, b :: bs => a == b && beginsWith as bs

/-- Python `needle in hay` substring test. -/
def containsSub (needle : PyStr) : PyStr → Bool
  | [] => beginsWith needle []
  | c :: rest => beginsWith needle (c :: rest) || containsSub needle rest

/-- Numeric value of an ASCII digit. -/
def digitVal (c : Char) : Nat := c.toNat - 48

/-- Python `int` applied to a string of decimal digits. -/
def digitsToNat (ds : PyStr) : Nat := ds.foldl (fun acc c => 10 * acc + digitVal c) 0

/-- The ASCII digit for `d < 10`. -/
def digitChar (d : Nat) : Char := Char.ofNat (48 + d)

/-- Decimal digits of `n`, most significant first (fuel-based so that it
reduces in the kernel; `fuel > n` suffices). -/
def natDigitsAux : Nat → Nat → PyStr
  | 0, _ => []
  | fuel + 1, n =>
    if n < 10 then [digitChar n]
    else natDigitsAux fuel (n / 10) ++ [digitChar (n % 10)]

/-- Decimal representation of a natural number. -/
def natDigits (n : Nat) : PyStr := natDigitsAux (n + 1) n

/-- Model of `re.search(r'(\d+) bytes', line)`, returning the integer value of
the first capture: the leftmost maximal digit run that is immediately followed
by `" bytes"`.  (`\d+` is greedy and `" bytes"` cannot start with a digit, so
the regex matches at a position exactly when the maximal digit run there is
followed by `" bytes"`; `re.search` takes the leftmost such position.) -/
def bytesSearch : PyStr → Option Nat
  | [] => none
  | c :: rest =>
    if isDigitChar c then
      let ds := (c :: rest).takeWhile isDigitChar
      if beginsWith (" bytes".toList) ((c :: rest).drop ds.length) then
        some (digitsToNat ds)
      else bytesSearch rest
    else bytesSearch rest

/-- One (original, duplicate, size-in-KB) triple of `find_duplicates_below`. -/
abbrev DupTriple := PyStr × PyStr × Nat

/-- The loop state of the output-parsing loop in `find_duplicates_below`. -/
structure ParseState where
  duplicates : List DupTriple
  current_group : List PyStr
  current_size : Nat
deriving DecidableEq

/-- `for i in range(len(current_group) - 1): duplicates.append((current_group[0],
current_group[i+1], current_size))` — the triples emitted when a group is
flushed: the group's first member paired with each later member. -/
def flushGroup (g : List PyStr) (sz : Nat) : List DupTriple :=
  match g with
  | [] => []
  | first :: rest => rest.map (fun p => (first, p, sz))

/-- The body of `for line in result.stdout.split('\n')` in
`find_duplicates_below`.  Note that the blank-line test and the stored path use
`line.strip()`, while the header test reads `line[0]` of the untrimmed line. -/
def processLine (st : ParseState) (line : PyStr) : ParseState :=
  if pyStrip line = [] then st
  else if isDigitChar (line.headD ' ') then
    let st1 :=
      if st.current_group = [] then st
      else { st with
              duplicates := st.duplicates ++ flushGroup st.current_group st.current_size,
              current_group := [] }
    match bytesSearch line with
    | some n => { st1 with current_size := n / 1024 }
    | none => st1
  else { st with current_group := st.current_group ++ [pyStrip line] }

/-- The `# Process the last group` step after the loop. -/
def finishParse (st : ParseState) : List DupTriple :=
  st.duplicates ++ flushGroup st.current_group st.current_size

/-- Descending-by-size order used by `duplicates.sort(key=lambda x: x[2],
reverse=True)`. -/
abbrev sizeGE (a b : DupTriple) : Prop := b.2.2 ≤ a.2.2

/-- `duplicates.sort(key=lambda x: x[2], reverse=True)`: a stable descending
sort by the size component (Python's sort is stable; any stable sort yields
the same list, here insertion sort). -/
def sortTriplesDesc (l : List DupTriple) : List DupTriple :=
  List.insertionSort sizeGE l

/-- The pure output-parsing part of `find_duplicates_below` (everything after
the subprocess call), applied to `result.stdout`. -/
def find_duplicates_parse (stdout : PyStr) : List DupTriple :=
  let st := (splitOnChar '\n' stdout).foldl processLine ⟨[], [], 0⟩
  sortTriplesDesc (finishParse st)

/-- The fields of `subprocess.run(...)`'s result that the script reads. -/
structure CompletedProcess where
  returncode : Int
  stdout : PyStr
  stderr : PyStr
deriving DecidableEq

/-- The exceptions `find_duplicates_below` can raise. -/
inductive FdupesError where
  | fileNotFound (msg : PyStr)
  | runtimeError (msg : PyStr)
deriving DecidableEq

/-- `find_duplicates_below` from the subprocess result onwards: error checks on
the exit status, then parsing and sorting of the tool's grouped output. -/
def find_duplicates_below (result : CompletedProcess) :
    Except FdupesError (List DupTriple) :=
  if result.returncode ≠ 0 then
    if containsSub ("command not found".toList) result.stderr then
      .error (.fileNotFound
        ("fdupes command not found. Please install fdupes to use this function.".toList))
    else
      .error (.runtimeError ("Failed to run fdupes: ".toList ++ result.stderr))
  else
    .ok (find_duplicates_parse result.stdout)

/-- `pathlib.Path(...).name`: the final path component (the script only ever
passes normalized absolute file paths). -/
def baseName (path : PyStr) : PyStr :=
  (path.reverse.takeWhile (fun c => c ≠ '/')).reverse

/-- Model of `re.compile(r'^(.+) \(\d+\)(\.[^.]+)$').match(name)`, returning
`(group 1, group 2)`.  Group 2 is pinned to the suffix from the last dot of
the name (since `[^.]+` admits no dot and is anchored at the end); the `\d+`
run is then forced to be the maximal digit run ending just before that dot's
preceding `')'` (any shorter run would need `'('` where a digit stands), so
the decomposition is unique and backtracking-free; `.+` excludes newlines. -/
def multiSaveSplit (name : PyStr) : Option (PyStr × PyStr) :=
  let r := name.reverse
  let rext := r.takeWhile (fun c => c ≠ '.')
  if rext = [] then none
  else
    match r.drop rext.length with
    | '.' :: rest1 =>
      match rest1 with
      | ')' :: rest2 =>
        let rds := rest2.takeWhile isDigitChar
        if rds = [] then none
        else
          match rest2.drop rds.length with
          | '(' :: ' ' :: rstem =>
            if rstem ≠ [] ∧ '\n' ∉ rstem then some (rstem.reverse, '.' :: rext.reverse)
            else none
          | _ => none
      | _ => none
    | _ => none

/-- The loop of `find_browser_multi_saves`: `original_names` is the dict from
registered name to the path that introduced it (only key membership is ever
read), `multi_saves` the accumulated result. -/
def fbmsGo (original_names : List (PyStr × PyStr)) : List PyStr → List PyStr
  | [] => []
  | path :: rest =>
    let name := baseName path
    match multiSaveSplit name with
    | some (g1, g2) =>
      if (original_names.lookup (g1 ++ g2)).isSome then
        path :: fbmsGo original_names rest
      else fbmsGo ((name, path) :: original_names) rest
    | none => fbmsGo ((name, path) :: original_names) rest

/-- `find_browser_multi_saves`: the input paths whose filename is a
multi-save version of an already-seen name. -/
def find_browser_multi_saves (file_paths : List PyStr) : List PyStr :=
  fbmsGo [] file_paths

/-- Round `num / den` to the nearest integer, ties to even (the rounding of
CPython's fixed-point float formatting). -/
def roundHalfEven (num den : Nat) : Nat :=
  let q := num / den
  let r := num % den
  if 2 * r < den then q
  else if den < 2 * r then q + 1
  else if q % 2 = 0 then q else q + 1

/-- Insert thousands separators into a digit string given least significant
first (fuel-based so that it reduces in the kernel). -/
def groupRevAux : Nat → PyStr → PyStr
  | 0, ds => ds
  | fuel + 1, ds =>
    if ds.length ≤ 3 then ds
    else ds.take 3 ++ ',' :: groupRevAux fuel (ds.drop 3)

/-- Python `f"{n:,}"` for a natural number: decimal digits with commas every
three digits. -/
def fmtThousands (n : Nat) : PyStr :=
  (groupRevAux (natDigits n).length (natDigits n).reverse).reverse

/-- Python `f"{n:,}"` for an `int`. -/
def intThousands (n : Int) : PyStr :=
  (if n < 0 then ['-'] else []) ++ fmtThousands n.natAbs

/-- Two-digit decimal rendering of `n < 100`. -/
def twoDigits (n : Nat) : PyStr := [digitChar (n / 10 % 10), digitChar (n % 10)]

/-- Python `f"{n / den:,.2f}"` where `den` is a power of two: the quotient
rounded to two decimal places, ties to even, with thousands separators.  (For
`|n| < 2^53` the float `n / den` is exact and CPython's `.2f` formatting is
correctly rounded with ties to even, so this is exactly the printed string;
a negative quotient that rounds to zero keeps its sign, as in CPython.) -/
def fmtFixed2 (n : Int) (den : Nat) : PyStr :=
  let q := roundHalfEven (n.natAbs * 100) den
  (if n < 0 then ['-'] else []) ++ fmtThousands (q / 100) ++ '.' :: twoDigits (q % 100)

/-- `convert_size`: render a kilobyte count in the requested unit, raising
`ValueError` (modelled as `.error`) for an unknown unit. -/
def convert_size (size_in_kb : Int) (units : PyStr) : Except PyStr PyStr :=
  if units = "KB".toList then
    .ok (intThousands size_in_kb ++ " KB".toList)
  else if units = "MB".toList then
    .ok (fmtFixed2 size_in_kb 1024 ++ " MB".toList)
  else if units = "GB".toList then
    .ok (fmtFixed2 size_in_kb (1024 * 1024) ++ " GB".toList)
  else
    .error ("Invalid unit: ".toList ++ units)

/-- The fields of the `du -sk` subprocess result that `get_folder_size`
reads. -/
structure DuResult where
  returncode : Int
  stdout : PyStr
deriving DecidableEq

/-- Python `int(s)` on a string: optional surrounding whitespace, optional
sign, then decimal digits with optional single underscores between digits. -/
def intDigitsTail : PyStr → Bool
  | [] => true
  | '_' :: c :: rest => isDigitChar c && intDigitsTail rest
  | c :: rest => isDigitChar c && intDigitsTail rest

/-- A nonempty well-formed digit body for Python `int(s)`. -/
def intDigitsOk : PyStr → Bool
  | [] => false
  | c :: rest => isDigitChar c && intDigitsTail rest

/-- Python `int(s)` for strings, `none` modelling `ValueError`. -/
def pyIntParse (s : PyStr) : Option Int :=
  match pyStrip s with
  | '+' :: ds => if intDigitsOk ds then some (digitsToNat (ds.filter (fun c => c ≠ '_'))) else none
  | '-' :: ds => if intDigitsOk ds then some (-(digitsToNat (ds.filter (fun c => c ≠ '_')) : Int)) else none
  | ds => if intDigitsOk ds then some (digitsToNat (ds.filter (fun c => c ≠ '_'))) else none

/-- `get_folder_size`: with `check=True` a non-zero exit raises
`CalledProcessError`, which the function catches and turns into `(folder, -1)`;
on a zero exit `size, _ = result.stdout.split('\t')` and `int(size)` run, whose
`ValueError`s (modelled as `.error`) are not caught. -/
def get_folder_size (folder : PyStr) (result : DuResult) : Except PyStr (PyStr × Int) :=
  if result.returncode ≠ 0 then .ok (folder, -1)
  else
    match splitOnChar '\t' result.stdout with
    | [size, _] =>
      match pyIntParse size with
      | some n => .ok (folder, n)
      | none => .error ("ValueError: invalid literal for int".toList)
    | _ => .error ("ValueError: not enough values to unpack".toList)

/-- The collection loop of `find_largest_folders` over its subdirectories,
each paired with the result of its `du` invocation.  (The `except
RuntimeError: pass` around the call is dead: `get_folder_size` never raises
`RuntimeError`; an uncaught `ValueError` propagates.) -/
def collectFolderSizes : List (PyStr × DuResult) → Except PyStr (List (PyStr × Int))
  | [] => .ok []
  | e :: rest =>
    match get_folder_size e.1 e.2 with
    | .ok v =>
      match collectFolderSizes rest with
      | .ok vs => .ok (v :: vs)
      | .error msg => .error msg
    | .error msg => .error msg

/-- Descending-by-size order used by `folder_sizes.sort(key=lambda x: x[1],
reverse=True)`. -/
abbrev folderSizeGE (a b : PyStr × Int) : Prop := b.2 ≤ a.2

/-- `folder_sizes.sort(key=lambda x: x[1], reverse=True)` (stable descending
sort by size). -/
def sortFoldersDesc (l : List (PyStr × Int)) : List (PyStr × Int) :=
  List.insertionSort folderSizeGE l

/-- `find_largest_folders` from the per-directory subprocess results onwards:
collect each folder's size and sort descending. -/
def find_largest_folders (entries : List (PyStr × DuResult)) :
    Except PyStr (List (PyStr × Int)) :=
  match collectFolderSizes entries with
  | .ok folder_sizes => .ok (sortFoldersDesc folder_sizes)
  | .error msg => .error msg

/-- Is an `Except` value a success? -/
def exceptOk {ε α : Type} : Except ε α → Bool
  | .ok _ => true
  | .error _ => false

/-- A well-formed duplicate-finder group for the parser's input format: a byte
size and the member paths.  Abstract groups are rendered to text by
`renderGroups` below. -/
abbrev DupGroup := Nat × List PyStr

/-- A path line the input format allows: non-empty, not starting with a digit
(so it is not taken for a header), newline-free, and already stripped. -/
abbrev goodPath (p : PyStr) : Prop :=
  p ≠ [] ∧ isDigitChar (p.headD ' ') = false ∧ '\n' ∉ p ∧ pyStrip p = p

/-- A well-formed group: at least one member, all members good path lines. -/
abbrev goodGroup (g : DupGroup) : Prop := g.2 ≠ [] ∧ ∀ p ∈ g.2, goodPath p

/-- A well-formed grouped input. -/
abbrev goodGroups (gs : List DupGroup) : Prop := ∀ g ∈ gs, goodGroup g

/-- A group header line of the input format: it begins with a digit and
contains `"<N> bytes"` (here in the shape `fdupes -S` prints). -/
def headerLine (sz : Nat) : PyStr := natDigits sz ++ " bytes each:".toList

/-- The lines of one rendered group: header, then one path per line. -/
def groupLines (g : DupGroup) : List PyStr := headerLine g.1 :: g.2

/-- The lines of a whole grouped input, groups separated by blank lines. -/
def linesOfGroups : List DupGroup → List PyStr
  | [] => []
  | [g] => groupLines g
  | g :: gs => groupLines g ++ [] :: linesOfGroups gs

/-- Join lines with newlines (inverse of splitting on `'\n'`). -/
def joinLines : List PyStr → PyStr
  | [] => []
  | [l] => l
  | l :: ls => l ++ '\n' :: joinLines ls

/-- The rendered text of a well-formed grouped input. -/
def renderGroups (gs : List DupGroup) : PyStr := joinLines (linesOfGroups gs)

/-- The triples a well-formed input describes: per group, the first-listed
member paired with each later member, carrying the group's size in KB. -/
def allTriples : List DupGroup → List DupTriple
  | [] => []
  | g :: gs => flushGroup g.2 (g.1 / 1024) ++ allTriples gs

/-! ### Facts about the text helpers -/

theorem digitChar_spec : ∀ d < 10, isDigitChar (digitChar d) = true ∧ digitVal (digitChar d) = d := by
  decide

theorem isDigitChar_ne_newline {c : Char} (h : isDigitChar c = true) : c ≠ '\n' := by
  intro hc
  rw [hc] at h
  exact absurd h (by decide)

theorem isDigitChar_not_space {c : Char} (h : isDigitChar c = true) : isPySpace c = false := by
  cases hs : isPySpace c with
  | false => rfl
  | true =>
    exfalso
    simp only [isPySpace, Bool.or_eq_true, beq_iff_eq, or_assoc] at hs
    rcases hs with rfl | rfl | rfl | rfl | rfl | rfl <;> exact absurd h (by decide)

theorem space_not_digit {c : Char} (h : isPySpace c = true) : isDigitChar c = false := by
  cases hd : isDigitChar c with
  | false => rfl
  | true => rw [isDigitChar_not_space hd] at h; exact absurd h (by decide)

theorem digitsToNat_append (a : PyStr) (c : Char) :
    digitsToNat (a ++ [c]) = 10 * digitsToNat a + digitVal c := by
  simp [digitsToNat, List.foldl_append]

theorem natDigitsAux_spec :
    ∀ fuel n, n < fuel →
      natDigitsAux fuel n ≠ [] ∧ (∀ c ∈ natDigitsAux fuel n, isDigitChar c = true) ∧
        digitsToNat (natDigitsAux fuel n) = n := by
  intro fuel
  induction fuel with
  | zero => intro n h; omega
  | succ fuel ih =>
    intro n h
    by_cases h10 : n < 10
    · refine ⟨by simp [natDigitsAux, h10], ?_, ?_⟩
      · intro c hc
        simp only [natDigitsAux, if_pos h10, List.mem_singleton] at hc
        rw [hc]
        exact (digitChar_spec n h10).1
      · simp only [natDigitsAux, if_pos h10, digitsToNat, List.foldl_cons, List.foldl_nil]
        have := (digitChar_spec n h10).2
        omega
    · have hn10 : n / 10 < fuel :=
        lt_of_lt_of_le (Nat.div_lt_self (by omega) (by omega)) (by omega)
      obtain ⟨hne, hdig, hval⟩ := ih (n / 10) hn10
      rw [natDigitsAux, if_neg h10]
      refine ⟨by simp [hne], ?_, ?_⟩
      · intro c hc
        rcases List.mem_append.mp hc with h1 | h1
        · exact hdig c h1
        · rw [List.mem_singleton.mp h1]
          exact (digitChar_spec (n % 10) (Nat.mod_lt n (by omega))).1
      · rw [digitsToNat_append, hval, (digitChar_spec (n % 10) (Nat.mod_lt n (by omega))).2]
        omega

theorem natDigits_ne_nil (n : Nat) : natDigits n ≠ [] :=
  (natDigitsAux_spec (n + 1) n (by omega)).1

theorem natDigits_digits (n : Nat) : ∀ c ∈ natDigits n, isDigitChar c = true :=
  (natDigitsAux_spec (n + 1) n (by omega)).2.1

theorem digitsToNat_natDigits (n : Nat) : digitsToNat (natDigits n) = n :=
  (natDigitsAux_spec (n + 1) n (by omega)).2.2

theorem takeWhile_append_of_all {p : Char → Bool} {a : PyStr} (b : PyStr)
    (h : ∀ c ∈ a, p c = true) : (a ++ b).takeWhile p = a ++ b.takeWhile p := by
  induction a with
  | nil => simp
  | cons c cs ih =>
    simp only [List.cons_append, List.takeWhile_cons, h c (by simp), if_true]
    rw [ih (fun x hx => h x (by simp [hx]))]

theorem pyStrip_ne_nil {l : PyStr} {c : Char} (hm : c ∈ l) (hc : isPySpace c = false) :
    pyStrip l ≠ [] := by
  intro h
  simp only [pyStrip, List.reverse_eq_nil_iff] at h
  rw [List.dropWhile_eq_nil_iff] at h
  rw [← List.takeWhile_append_dropWhile (p := isPySpace) (l := l)] at hm
  rcases List.mem_append.mp hm with h2 | h2
  · rw [List.mem_takeWhile_imp h2] at hc
    exact absurd hc (by decide)
  · rw [h c (by simp [h2])] at hc
    exact absurd hc (by decide)

/-! ### Facts about header lines and the parsing loop -/

theorem headerLine_cases (sz : Nat) :
    ∃ c cs, natDigits sz = c :: cs ∧ isDigitChar c = true ∧
      (∀ x ∈ cs, isDigitChar x = true) := by
  obtain ⟨c, cs, hcons⟩ := List.exists_cons_of_ne_nil (natDigits_ne_nil sz)
  refine ⟨c, cs, hcons, ?_, ?_⟩
  · exact natDigits_digits sz c (by rw [hcons]; simp)
  · intro x hx
    exact natDigits_digits sz x (by rw [hcons]; simp [hx])

theorem bytesSearch_headerLine (sz : Nat) : bytesSearch (headerLine sz) = some sz := by
  obtain ⟨c, cs, hcons, hc, hcs⟩ := headerLine_cases sz
  have hsplit : headerLine sz = c :: (cs ++ " bytes each:".toList) := by
    rw [headerLine, hcons]
    rfl
  rw [hsplit, bytesSearch]
  have htake : (c :: (cs ++ " bytes each:".toList)).takeWhile isDigitChar = c :: cs := by
    have h1 : (c :: cs) ++ " bytes each:".toList = c :: (cs ++ " bytes each:".toList) := rfl
    have h2 : List.takeWhile isDigitChar (" bytes each:".toList) = [] := by decide
    rw [← h1, takeWhile_append_of_all _ (by intro x hx; rcases List.mem_cons.mp hx with rfl | h3; exact hc; exact hcs x h3), h2, List.append_nil]
  rw [hc]
  simp only [htake, if_true]
  have hdrop : (c :: (cs ++ " bytes each:".toList)).drop (c :: cs).length =
      " bytes each:".toList := by
    have h1 : c :: (cs ++ " bytes each:".toList) = (c :: cs) ++ " bytes each:".toList := rfl
    rw [h1, List.drop_left]
  rw [hdrop]
  have hbeg : beginsWith (" bytes".toList) (" bytes each:".toList) = true := by decide
  rw [hbeg]
  simp only [if_true]
  rw [← hcons, digitsToNat_natDigits]

theorem headerLine_head_digit (sz : Nat) : isDigitChar ((headerLine sz).headD ' ') = true := by
  obtain ⟨c, cs, hcons, hc, _⟩ := headerLine_cases sz
  have hsplit : headerLine sz = c :: (cs ++ " bytes each:".toList) := by
    rw [headerLine, hcons]
    rfl
  rw [hsplit]
  exact hc

theorem headerLine_no_newline (sz : Nat) : '\n' ∉ headerLine sz := by
  intro h
  rcases List.mem_append.mp h with h1 | h1
  · exact isDigitChar_ne_newline (natDigits_digits sz _ h1) rfl
  · exact absurd h1 (by decide)

theorem pyStrip_headerLine_ne_nil (sz : Nat) : pyStrip (headerLine sz) ≠ [] := by
  obtain ⟨c, cs, hcons, hc, _⟩ := headerLine_cases sz
  refine pyStrip_ne_nil (c := c) ?_ (isDigitChar_not_space hc)
  rw [headerLine, hcons]
  simp

theorem processLine_blank (st : ParseState) {line : PyStr} (h : pyStrip line = []) :
    processLine st line = st := by
  simp [processLine, h]

theorem processLine_path (st : ParseState) {p : PyStr} (hp : goodPath p) :
    processLine st p = ⟨st.duplicates, st.current_group ++ [p], st.current_size⟩ := by
  obtain ⟨hne, hd, _, hstrip⟩ := hp
  have hd2 : isDigitChar ((p.head?).getD ' ') = false := by simpa using hd
  simp [processLine, hstrip, hne, hd2]

theorem processLine_header (st : ParseState) (sz : Nat) :
    processLine st (headerLine sz) =
      ⟨st.duplicates ++ flushGroup st.current_group st.current_size, [], sz / 1024⟩ := by
  have h1 : ¬(pyStrip (headerLine sz) = []) := pyStrip_headerLine_ne_nil sz
  have h2 : isDigitChar (((headerLine sz).head?).getD ' ') = true := by
    simpa using headerLine_head_digit sz
  have h3 := bytesSearch_headerLine sz
  by_cases hg : st.current_group = []
  · simp [processLine, h1, h2, h3, hg, flushGroup]
  · simp [processLine, h1, h2, h3, hg]

theorem processLine_badHeader (st : ParseState) {line : PyStr}
    (h1 : pyStrip line ≠ []) (h2 : isDigitChar (line.headD ' ') = true)
    (h3 : bytesSearch line = none) :
    processLine st line =
      ⟨st.duplicates ++ flushGroup st.current_group st.current_size, [], st.current_size⟩ := by
  have h4 : isDigitChar ((line.head?).getD ' ') = true := by simpa using h2
  obtain ⟨d, g, s⟩ := st
  by_cases hg : g = []
  · subst hg
    simp [processLine, h1, h4, h3, flushGroup]
  · simp [processLine, h1, h4, h3, hg, flushGroup]

theorem foldl_processLine_paths :
    ∀ (paths : List PyStr) (D : List DupTriple) (g : List PyStr) (s : Nat),
      (∀ p ∈ paths, goodPath p) →
      paths.foldl processLine ⟨D, g, s⟩ = ⟨D, g ++ paths, s⟩ := by
  intro paths
  induction paths with
  | nil => intro D g s _; simp
  | cons p ps ih =>
    intro D g s h
    rw [List.foldl_cons, processLine_path _ (h p (by simp)),
        ih D (g ++ [p]) s (fun q hq => h q (by simp [hq]))]
    simp

theorem foldl_processLine_group (g : DupGroup) (D : List DupTriple) (g0 : List PyStr) (s0 : Nat)
    (hg : goodGroup g) :
    (groupLines g).foldl processLine ⟨D, g0, s0⟩ = ⟨D ++ flushGroup g0 s0, g.2, g.1 / 1024⟩ := by
  rw [groupLines, List.foldl_cons, processLine_header,
      foldl_processLine_paths _ _ _ _ hg.2]
  simp

theorem finishParse_foldl_linesOfGroups :
    ∀ (gs : List DupGroup) (D : List DupTriple) (g0 : List PyStr) (s0 : Nat),
      goodGroups gs →
      finishParse ((linesOfGroups gs).foldl processLine ⟨D, g0, s0⟩) =
        D ++ (flushGroup g0 s0 ++ allTriples gs) := by
  intro gs
  induction gs with
  | nil => intro D g0 s0 _; simp [linesOfGroups, finishParse, allTriples]
  | cons g gs ih =>
    intro D g0 s0 h
    have hg : goodGroup g := h g (by simp)
    cases gs with
    | nil =>
      have hl : linesOfGroups [g] = groupLines g := rfl
      rw [hl, foldl_processLine_group g D g0 s0 hg]
      simp [finishParse, allTriples]
    | cons g2 gs2 =>
      have hl : linesOfGroups (g :: g2 :: gs2) =
          groupLines g ++ [] :: linesOfGroups (g2 :: gs2) := rfl
      rw [hl, List.foldl_append, foldl_processLine_group g D g0 s0 hg,
          List.foldl_cons, processLine_blank _ (show pyStrip [] = [] from rfl),
          ih (D ++ flushGroup g0 s0) g.2 (g.1 / 1024) (fun q hq => h q (by simp [hq]))]
      simp [allTriples]

/-! ### Splitting and joining lines -/

theorem splitOnChar_ne_nil (sep : Char) (l : PyStr) : splitOnChar sep l ≠ [] := by
  induction l with
  | nil => simp [splitOnChar]
  | cons c rest ih =>
    rw [splitOnChar]
    by_cases hc : c = sep
    · simp [hc]
    · rw [if_neg hc]
      cases hs : splitOnChar sep rest with
      | nil => exact absurd hs ih
      | cons a as => simp

theorem splitOnChar_of_not_mem {sep : Char} {l : PyStr} (h : sep ∉ l) :
    splitOnChar sep l = [l] := by
  induction l with
  | nil => rfl
  | cons c rest ih =>
    have hc : ¬(c = sep) := by rintro rfl; exact h (by simp)
    rw [splitOnChar, if_neg hc, ih (fun hm => h (by simp [hm]))]

theorem splitOnChar_append {sep : Char} {l : PyStr} (r : PyStr) (h : sep ∉ l) :
    splitOnChar sep (l ++ sep :: r) = l :: splitOnChar sep r := by
  induction l with
  | nil => simp [splitOnChar]
  | cons c t ih =>
    have hc : ¬(c = sep) := by rintro rfl; exact h (by simp)
    rw [List.cons_append, splitOnChar, if_neg hc, ih (fun hm => h (by simp [hm]))]

theorem splitOnChar_joinLines :
    ∀ (lines : List PyStr), lines ≠ [] → (∀ l ∈ lines, '\n' ∉ l) →
      splitOnChar '\n' (joinLines lines) = lines := by
  intro lines
  induction lines with
  | nil => intro h; exact absurd rfl h
  | cons l ls ih =>
    intro _ h
    cases ls with
    | nil => exact splitOnChar_of_not_mem (h l (by simp))
    | cons l2 ls2 =>
      have hj : joinLines (l :: l2 :: ls2) = l ++ '\n' :: joinLines (l2 :: ls2) := rfl
      rw [hj, splitOnChar_append _ (h l (by simp)),
          ih (by simp) (fun q hq => h q (by simp [hq]))]

theorem linesOfGroups_no_newline :
    ∀ (gs : List DupGroup), goodGroups gs → ∀ l ∈ linesOfGroups gs, '\n' ∉ l := by
  intro gs
  induction gs with
  | nil => intro _ l hl; simp [linesOfGroups] at hl
  | cons g gs ih =>
    intro h l hl
    have hg : goodGroup g := h g (by simp)
    have hgroup : ∀ x ∈ groupLines g, '\n' ∉ x := by
      intro x hx
      rcases List.mem_cons.mp hx with rfl | h2
      · exact headerLine_no_newline g.1
      · exact (hg.2 x h2).2.2.1
    cases gs with
    | nil => exact hgroup l hl
    | cons g2 gs2 =>
      have hl2 : l ∈ groupLines g ++ [] :: linesOfGroups (g2 :: gs2) := hl
      rcases List.mem_append.mp hl2 with h2 | h2
      · exact hgroup l h2
      · rcases List.mem_cons.mp h2 with rfl | h3
        · simp
        · exact ih (fun q hq => h q (by simp [hq])) l h3

theorem linesOfGroups_ne_nil (g : DupGroup) (gs : List DupGroup) :
    linesOfGroups (g :: gs) ≠ [] := by
  cases gs with
  | nil => simp [linesOfGroups, groupLines]
  | cons g2 gs2 =>
    have hl : linesOfGroups (g :: g2 :: gs2) =
        groupLines g ++ [] :: linesOfGroups (g2 :: gs2) := rfl
    rw [hl]
    simp [groupLines]

/-! ### The parser on rendered well-formed input -/

theorem find_duplicates_parse_render {gs : List DupGroup} (h : goodGroups gs) :
    find_duplicates_parse (renderGroups gs) = sortTriplesDesc (allTriples gs) := by
  cases gs with
  | nil => rfl
  | cons g gs2 =>
    rw [find_duplicates_parse, renderGroups,
        splitOnChar_joinLines _ (linesOfGroups_ne_nil g gs2) (linesOfGroups_no_newline _ h),
        finishParse_foldl_linesOfGroups _ [] [] 0 h]
    simp [flushGroup]

theorem sortTriplesDesc_perm (l : List DupTriple) : (sortTriplesDesc l).Perm l :=
  List.perm_insertionSort _ l

theorem sortTriplesDesc_sorted (l : List DupTriple) :
    List.Sorted sizeGE (sortTriplesDesc l) := by
  haveI : IsTotal DupTriple sizeGE := ⟨fun a b => le_total b.2.2 a.2.2⟩
  haveI : IsTrans DupTriple sizeGE := ⟨fun a b c hab hbc => le_trans hbc hab⟩
  exact List.sorted_insertionSort sizeGE l

theorem flushGroup_length (g : List PyStr) (sz : Nat) :
    (flushGroup g sz).length = g.length - 1 := by
  cases g <;> simp [flushGroup]

theorem allTriples_length :
    ∀ gs : List DupGroup, (allTriples gs).length = (gs.map (fun g => g.2.length - 1)).sum := by
  intro gs
  induction gs with
  | nil => rfl
  | cons g gs ih => simp [allTriples, flushGroup_length, ih]

theorem mem_allTriples {t : DupTriple} :
    ∀ {gs : List DupGroup}, t ∈ allTriples gs → ∃ g ∈ gs, t ∈ flushGroup g.2 (g.1 / 1024) := by
  intro gs
  induction gs with
  | nil => intro h; simp [allTriples] at h
  | cons g gs ih =>
    intro h
    rcases List.mem_append.mp (by simpa [allTriples] using h) with h1 | h1
    · exact ⟨g, by simp, h1⟩
    · obtain ⟨g2, hg2, ht⟩ := ih h1
      exact ⟨g2, by simp [hg2], ht⟩

theorem flushGroup_size {t : DupTriple} {g : List PyStr} {sz : Nat}
    (h : t ∈ flushGroup g sz) : t.2.2 = sz := by
  cases g with
  | nil => simp [flushGroup] at h
  | cons a rest =>
    simp only [flushGroup, List.mem_map] at h
    obtain ⟨p, _, ht⟩ := h
    rw [← ht]

/-! ### Facts about the multi-save matcher -/

theorem fbmsGo_sublist :
    ∀ (paths : List PyStr) (names : List (PyStr × PyStr)),
      (fbmsGo names paths).Sublist paths := by
  intro paths
  induction paths with
  | nil => intro names; simp [fbmsGo]
  | cons p rest ih =>
    intro names
    cases hms : multiSaveSplit (baseName p) with
    | none =>
      simp only [fbmsGo, hms]
      exact (ih _).cons p
    | some g12 =>
      obtain ⟨g1, g2⟩ := g12
      by_cases hk : (names.lookup (g1 ++ g2)).isSome = true
      · simp only [fbmsGo, hms, if_pos hk]
        exact (ih names).cons₂ p
      · simp only [fbmsGo, hms, if_neg hk]
        exact (ih _).cons p

theorem find_browser_multi_saves_sublist_tail (paths : List PyStr) :
    (find_browser_multi_saves paths).Sublist paths.tail := by
  cases paths with
  | nil => simp [find_browser_multi_saves, fbmsGo]
  | cons p rest =>
    cases hms : multiSaveSplit (baseName p) with
    | none =>
      simp only [find_browser_multi_saves, fbmsGo, hms]
      exact fbmsGo_sublist rest _
    | some g12 =>
      obtain ⟨g1, g2⟩ := g12
      simp only [find_browser_multi_saves, fbmsGo, hms, List.lookup]
      exact fbmsGo_sublist rest _

theorem mem_fbmsGo_matches :
    ∀ (paths : List PyStr) (names : List (PyStr × PyStr)) (p : PyStr),
      p ∈ fbmsGo names paths → (multiSaveSplit (baseName p)).isSome = true := by
  intro paths
  induction paths with
  | nil => intro names p h; simp [fbmsGo] at h
  | cons q rest ih =>
    intro names p h
    cases hms : multiSaveSplit (baseName q) with
    | none =>
      simp only [fbmsGo, hms] at h
      exact ih _ p h
    | some g12 =>
      obtain ⟨g1, g2⟩ := g12
      by_cases hk : (names.lookup (g1 ++ g2)).isSome = true
      · simp only [fbmsGo, hms, if_pos hk] at h
        rcases List.mem_cons.mp h with rfl | h2
        · simp [hms]
        · exact ih _ p h2
      · simp only [fbmsGo, hms, if_neg hk] at h
        exact ih _ p h

/-! ### Facts about the folder-size pipeline -/

theorem get_folder_size_nonzero {folder : PyStr} {r : DuResult} (h : r.returncode ≠ 0) :
    get_folder_size folder r = .ok (folder, -1) := by
  rw [get_folder_size, if_pos h]

theorem collectFolderSizes_ok :
    ∀ entries : List (PyStr × DuResult),
      (∀ e ∈ entries, exceptOk (get_folder_size e.1 e.2) = true) →
      ∃ vs, collectFolderSizes entries = .ok vs ∧ vs.length = entries.length ∧
        ∀ e ∈ entries, e.2.returncode ≠ 0 → (e.1, -1) ∈ vs := by
  intro entries
  induction entries with
  | nil => intro _; exact ⟨[], rfl, rfl, by simp⟩
  | cons e rest ih =>
    intro h
    have he : exceptOk (get_folder_size e.1 e.2) = true := h e (by simp)
    obtain ⟨v, hv⟩ : ∃ v, get_folder_size e.1 e.2 = .ok v := by
      cases hg : get_folder_size e.1 e.2 with
      | ok v => exact ⟨v, rfl⟩
      | error m => rw [hg] at he; exact absurd he (by simp [exceptOk])
    obtain ⟨vs, hvs, hlen, hmem⟩ := ih (fun q hq => h q (by simp [hq]))
    refine ⟨v :: vs, ?_, by simp [hlen], ?_⟩
    · rw [collectFolderSizes, hv, hvs]
    · intro q hq hrc
      rcases List.mem_cons.mp hq with rfl | h2
      · have : get_folder_size q.1 q.2 = .ok (q.1, -1) := get_folder_size_nonzero hrc
        rw [this] at hv
        injection hv with hv2
        simp [← hv2]
      · simp [hmem q h2 hrc]

theorem sortFoldersDesc_perm (l : List (PyStr × Int)) : (sortFoldersDesc l).Perm l :=
  List.perm_insertionSort _ l

/-! ### Claim theorems -/

/-- Claim C1: for every well-formed grouped input with groups of member counts
`n₁..n_G`, `find_duplicates_below`'s parser emits exactly `Σ (nᵢ − 1)` triples,
and the output is (up to the final descending sort) exactly the list that
pairs each group's first-listed path with each later-listed member of the same
group at that group's size; in particular a single-member group contributes no
triple. -/
theorem dup_parser_group_triples (gs : List DupGroup) (h : goodGroups gs) :
    (find_duplicates_parse (renderGroups gs)).Perm (allTriples gs) ∧
    (find_duplicates_parse (renderGroups gs)).length =
      (gs.map (fun g => g.2.length - 1)).sum := by
  have h1 := find_duplicates_parse_render h
  refine ⟨?_, ?_⟩
  · rw [h1]
    exact sortTriplesDesc_perm _
  · rw [h1, (sortTriplesDesc_perm _).length_eq, allTriples_length]

theorem dup_parser_group_triples_witness :
    goodGroups [(204800, ["/d/x.pdf".toList, "/d/y.pdf".toList, "/d/z.pdf".toList]),
        (2048, ["/d/w.txt".toList])] ∧
    ((find_duplicates_parse (renderGroups
        [(204800, ["/d/x.pdf".toList, "/d/y.pdf".toList, "/d/z.pdf".toList]),
          (2048, ["/d/w.txt".toList])])).Perm
      (allTriples [(204800, ["/d/x.pdf".toList, "/d/y.pdf".toList, "/d/z.pdf".toList]),
        (2048, ["/d/w.txt".toList])]) ∧
    (find_duplicates_parse (renderGroups
        [(204800, ["/d/x.pdf".toList, "/d/y.pdf".toList, "/d/z.pdf".toList]),
          (2048, ["/d/w.txt".toList])])).length =
      ([(204800, ["/d/x.pdf".toList, "/d/y.pdf".toList, "/d/z.pdf".toList]),
        (2048, ["/d/w.txt".toList])].map (fun g => g.2.length - 1)).sum) :=
  ⟨by decide, dup_parser_group_triples _ (by decide)⟩

/-- Claim C2: on the two-element list `[/a/f.txt, /a/f (1).txt]` the matcher
returns exactly `[/a/f (1).txt]`, and on `[/a/f (1).txt, /a/f (2).txt]` (no
path literally named `f.txt`) it returns `[]`: a multi-save file is reported
only when a path whose filename equals its computed canonical name appears
earlier in the same input list. -/
theorem multi_save_matcher_pairs :
    find_browser_multi_saves ["/a/f.txt".toList, "/a/f (1).txt".toList] =
      ["/a/f (1).txt".toList] ∧
    find_browser_multi_saves ["/a/f (1).txt".toList, "/a/f (2).txt".toList] = [] :=
  ⟨by decide, by decide⟩

/-- Claim C3: a header line (non-blank, first character a digit) in which the
`"(\d+) bytes"` regex finds no match leaves `current_size` unchanged, so the
group that follows it is emitted with the size of the previous successfully
parsed header — or with the initial `0` when no header has matched yet — and
no error is raised (the parser is total). -/
theorem dup_parser_stale_size (sz1 : Nat) (paths1 paths2 paths3 : List PyStr) (badHdr : PyStr)
    (h1 : ∀ p ∈ paths1, goodPath p) (h2 : ∀ p ∈ paths2, goodPath p)
    (h3 : ∀ p ∈ paths3, goodPath p)
    (hb1 : pyStrip badHdr ≠ []) (hb2 : isDigitChar (badHdr.headD ' ') = true)
    (hb3 : bytesSearch badHdr = none) (hb4 : '\n' ∉ badHdr) :
    find_duplicates_parse
        (joinLines (headerLine sz1 :: (paths1 ++ [] :: badHdr :: paths2))) =
      sortTriplesDesc (flushGroup paths1 (sz1 / 1024) ++ flushGroup paths2 (sz1 / 1024)) ∧
    find_duplicates_parse (joinLines (badHdr :: paths3)) =
      sortTriplesDesc (flushGroup paths3 0) := by
  have hblank : ∀ st : ParseState, processLine st [] = st :=
    fun st => processLine_blank st (show pyStrip [] = [] from rfl)
  constructor
  · have hnl : ∀ l ∈ headerLine sz1 :: (paths1 ++ [] :: badHdr :: paths2), '\n' ∉ l := by
      intro l hl
      rcases List.mem_cons.mp hl with rfl | hl2
      · exact headerLine_no_newline sz1
      · rcases List.mem_append.mp hl2 with hp | hp
        · exact (h1 l hp).2.2.1
        · rcases List.mem_cons.mp hp with rfl | hp2
          · simp
          · rcases List.mem_cons.mp hp2 with rfl | hp3
            · exact hb4
            · exact (h2 l hp3).2.2.1
    have hfold :
        (headerLine sz1 :: (paths1 ++ [] :: badHdr :: paths2)).foldl processLine ⟨[], [], 0⟩ =
          ⟨flushGroup paths1 (sz1 / 1024), paths2, sz1 / 1024⟩ := by
      rw [List.foldl_cons, processLine_header]
      show (paths1 ++ [] :: badHdr :: paths2).foldl processLine ⟨[], [], sz1 / 1024⟩ = _
      rw [List.foldl_append, foldl_processLine_paths _ _ _ _ h1]
      show ([] :: badHdr :: paths2).foldl processLine ⟨[], paths1, sz1 / 1024⟩ = _
      rw [List.foldl_cons, hblank, List.foldl_cons, processLine_badHeader _ hb1 hb2 hb3]
      show paths2.foldl processLine ⟨flushGroup paths1 (sz1 / 1024), [], sz1 / 1024⟩ = _
      rw [foldl_processLine_paths _ _ _ _ h2]
      simp
    show sortTriplesDesc (finishParse ((splitOnChar '\n'
        (joinLines (headerLine sz1 :: (paths1 ++ [] :: badHdr :: paths2)))).foldl
          processLine ⟨[], [], 0⟩)) = _
    rw [splitOnChar_joinLines _ (by simp) hnl, hfold]
    rfl
  · have hnl : ∀ l ∈ badHdr :: paths3, '\n' ∉ l := by
      intro l hl
      rcases List.mem_cons.mp hl with rfl | hl2
      · exact hb4
      · exact (h3 l hl2).2.2.1
    have hfold : (badHdr :: paths3).foldl processLine ⟨[], [], 0⟩ = ⟨[], paths3, 0⟩ := by
      rw [List.foldl_cons, processLine_badHeader _ hb1 hb2 hb3]
      show paths3.foldl processLine ⟨[], [], 0⟩ = _
      rw [foldl_processLine_paths _ _ _ _ h3]
      simp
    show sortTriplesDesc (finishParse ((splitOnChar '\n'
        (joinLines (badHdr :: paths3))).foldl processLine ⟨[], [], 0⟩)) = _
    rw [splitOnChar_joinLines _ (by simp) hnl, hfold]
    rfl

theorem dup_parser_stale_size_witness :
    bytesSearch ("999".toList) = none ∧
    (find_duplicates_parse
        (joinLines (headerLine 4096 ::
          (["/a".toList, "/b".toList] ++ [] :: ("999".toList) :: ["/c".toList, "/d".toList]))) =
      sortTriplesDesc (flushGroup ["/a".toList, "/b".toList] (4096 / 1024) ++
        flushGroup ["/c".toList, "/d".toList] (4096 / 1024)) ∧
    find_duplicates_parse (joinLines (("999".toList) :: ["/e".toList, "/f".toList])) =
      sortTriplesDesc (flushGroup ["/e".toList, "/f".toList] 0)) :=
  ⟨by decide, dup_parser_stale_size 4096 _ _ _ _ (by decide) (by decide) (by decide)
    (by decide) (by decide) (by decide) (by decide)⟩

/-- Claim C4: every triple emitted for a group whose header carries byte count
`N` has size `N / 1024` (integer division); in particular a group declaring
`102400 bytes` yields triples with size `100`. -/
theorem dup_parser_size_kb (gs : List DupGroup) (h : goodGroups gs) :
    (∀ t ∈ find_duplicates_parse (renderGroups gs),
        ∃ g ∈ gs, t ∈ flushGroup g.2 (g.1 / 1024) ∧ t.2.2 = g.1 / 1024) ∧
    find_duplicates_parse (renderGroups [(102400, ["/a/f.txt".toList, "/a/g.txt".toList])]) =
      [("/a/f.txt".toList, "/a/g.txt".toList, 100)] := by
  refine ⟨?_, by decide⟩
  intro t ht
  rw [find_duplicates_parse_render h] at ht
  obtain ⟨g, hg, hmem⟩ := mem_allTriples ((sortTriplesDesc_perm _).mem_iff.mp ht)
  exact ⟨g, hg, hmem, flushGroup_size hmem⟩

theorem dup_parser_size_kb_witness :
    goodGroups [(102400, ["/a/f.txt".toList, "/a/g.txt".toList])] ∧
    ∀ t ∈ find_duplicates_parse (renderGroups [(102400, ["/a/f.txt".toList, "/a/g.txt".toList])]),
      ∃ g ∈ [(102400, ["/a/f.txt".toList, "/a/g.txt".toList])],
        t ∈ flushGroup g.2 (g.1 / 1024) ∧ t.2.2 = g.1 / 1024 :=
  ⟨by decide, (dup_parser_size_kb _ (by decide)).1⟩

/-- Claim C5: whatever text the duplicate finder produced, the list
`find_duplicates_below` returns is sorted in non-increasing order of the size
component. -/
theorem dup_parser_sorted_desc (result : CompletedProcess) (out : List DupTriple)
    (h : find_duplicates_below result = .ok out) : List.Sorted sizeGE out := by
  rw [find_duplicates_below] at h
  by_cases hr : result.returncode ≠ 0
  · rw [if_pos hr] at h
    by_cases hc : containsSub ("command not found".toList) result.stderr = true
    · rw [if_pos hc] at h
      simp at h
    · rw [if_neg hc] at h
      simp at h
  · rw [if_neg hr] at h
    have h2 : out = find_duplicates_parse result.stdout := by
      injection h with h3
      exact h3.symm
    rw [h2]
    exact sortTriplesDesc_sorted _

theorem dup_parser_sorted_desc_witness :
    List.Sorted sizeGE (find_duplicates_parse
      ("2048 bytes each:\n/a\n/b\n\n1024000 bytes each:\n/c\n/d".toList)) :=
  dup_parser_sorted_desc
    ⟨0, "2048 bytes each:\n/a\n/b\n\n1024000 bytes each:\n/c\n/d".toList, []⟩ _ rfl

/-- Claim C6: `find_duplicates_below` raises `FileNotFoundError` exactly when
the duplicate finder exits non-zero with `'command not found'` in its error
stream, raises `RuntimeError` carrying the tool's error text for every other
non-zero exit, and raises nothing on a zero exit. -/
theorem fdupes_error_classification (result : CompletedProcess) :
    (find_duplicates_below result = .error (.fileNotFound
        ("fdupes command not found. Please install fdupes to use this function.".toList)) ↔
      result.returncode ≠ 0 ∧
        containsSub ("command not found".toList) result.stderr = true) ∧
    (find_duplicates_below result = .error (.runtimeError
        ("Failed to run fdupes: ".toList ++ result.stderr)) ↔
      result.returncode ≠ 0 ∧
        containsSub ("command not found".toList) result.stderr = false) ∧
    (find_duplicates_below result = .ok (find_duplicates_parse result.stdout) ↔
      result.returncode = 0) := by
  rw [find_duplicates_below]
  by_cases hr : result.returncode ≠ 0
  · rw [if_pos hr]
    by_cases hc : containsSub ("command not found".toList) result.stderr = true
    · rw [if_pos hc]
      refine ⟨⟨fun _ => ⟨hr, hc⟩, fun _ => rfl⟩,
        ⟨fun h => absurd h (by simp), fun h => ?_⟩,
        ⟨fun h => absurd h (by simp), fun h => absurd h hr⟩⟩
      rw [hc] at h
      exact absurd h.2 (by simp)
    · rw [if_neg hc]
      have hc2 : containsSub ("command not found".toList) result.stderr = false := by
        simpa using hc
      refine ⟨⟨fun h => absurd h (by simp), fun h => ?_⟩,
        ⟨fun _ => ⟨hr, hc2⟩, fun _ => rfl⟩,
        ⟨fun h => absurd h (by simp), fun h => absurd h hr⟩⟩
      rw [hc2] at h
      exact absurd h.2 (by simp)
  · rw [if_neg hr]
    have hr2 : result.returncode = 0 := not_ne_iff.mp hr
    exact ⟨⟨fun h => absurd h (by simp), fun h => absurd h.1 hr⟩,
      ⟨fun h => absurd h (by simp), fun h => absurd h.1 hr⟩,
      ⟨fun _ => hr2, fun _ => rfl⟩⟩

theorem fdupes_error_classification_witness :
    find_duplicates_below ⟨1, [], "sh: fdupes: command not found".toList⟩ =
      .error (.fileNotFound
        ("fdupes command not found. Please install fdupes to use this function.".toList)) :=
  (fdupes_error_classification ⟨1, [], "sh: fdupes: command not found".toList⟩).1.mpr
    ⟨by decide, by decide⟩

/-- Claim C7: a non-zero exit of the per-folder `du` invocation is never
propagated: the folder contributes `(folder, -1)` and the remaining folders
are still processed (all entries appear in the result). -/
theorem folder_size_error_swallowed :
    (∀ (folder : PyStr) (r : DuResult), r.returncode ≠ 0 →
        get_folder_size folder r = .ok (folder, -1)) ∧
    (∀ entries : List (PyStr × DuResult),
      (∀ e ∈ entries, exceptOk (get_folder_size e.1 e.2) = true) →
      ∃ out, find_largest_folders entries = .ok out ∧ out.length = entries.length ∧
        ∀ e ∈ entries, e.2.returncode ≠ 0 → (e.1, -1) ∈ out) := by
  refine ⟨fun folder r h => get_folder_size_nonzero h, ?_⟩
  intro entries h
  obtain ⟨vs, hvs, hlen, hmem⟩ := collectFolderSizes_ok entries h
  refine ⟨sortFoldersDesc vs, ?_, ?_, ?_⟩
  · simp only [find_largest_folders, hvs]
  · rw [(sortFoldersDesc_perm vs).length_eq, hlen]
  · intro e he hrc
    exact (sortFoldersDesc_perm vs).mem_iff.mpr (hmem e he hrc)

theorem folder_size_error_swallowed_witness :
    (∀ e ∈ [(("/r/a".toList : PyStr), (⟨0, "123\t/r/a\n".toList⟩ : DuResult)),
        ("/r/b".toList, ⟨1, []⟩)], exceptOk (get_folder_size e.1 e.2) = true) ∧
    ∃ out, find_largest_folders [(("/r/a".toList : PyStr), (⟨0, "123\t/r/a\n".toList⟩ : DuResult)),
        ("/r/b".toList, ⟨1, []⟩)] = .ok out ∧
      out.length = [(("/r/a".toList : PyStr), (⟨0, "123\t/r/a\n".toList⟩ : DuResult)),
        ("/r/b".toList, ⟨1, []⟩)].length ∧
      ∀ e ∈ [(("/r/a".toList : PyStr), (⟨0, "123\t/r/a\n".toList⟩ : DuResult)),
        ("/r/b".toList, ⟨1, []⟩)], e.2.returncode ≠ 0 → (e.1, -1) ∈ out :=
  ⟨by decide, folder_size_error_swallowed.2 _ (by decide)⟩

/-- Claim C8: `convert_size` fails with an invalid-unit error exactly when the
unit is none of KB, MB, GB; for the valid units it returns the display string
(KB exact with thousands separators, MB and GB divided by 1024 resp. 1024² and
rounded to two decimals): `convert_size 1536 MB = "1.50 MB"`,
`convert_size 0 KB = "0 KB"`, and `convert_size x TB` fails for every `x`. -/
theorem convert_size_units (x : Int) (u : PyStr) :
    ((∃ m, convert_size x u = .error m) ↔
      ¬(u = "KB".toList ∨ u = "MB".toList ∨ u = "GB".toList)) ∧
    convert_size 1536 ("MB".toList) = .ok ("1.50 MB".toList) ∧
    convert_size 0 ("KB".toList) = .ok ("0 KB".toList) ∧
    convert_size x ("TB".toList) = .error ("Invalid unit: TB".toList) := by
  refine ⟨?_, rfl, rfl, ?_⟩
  · rw [convert_size]
    by_cases h1 : u = "KB".toList
    · simp [h1]
    · rw [if_neg h1]
      by_cases h2 : u = "MB".toList
      · simp [h1, h2]
      · rw [if_neg h2]
        by_cases h3 : u = "GB".toList
        · simp [h1, h2, h3]
        · rw [if_neg h3]
          constructor
          · rintro _ (h | h | h)
            · exact h1 h
            · exact h2 h
            · exact h3 h
          · exact fun _ => ⟨_, rfl⟩
  · rfl

theorem convert_size_units_witness :
    ∃ m, convert_size 5 ("XB".toList) = .error m :=
  (convert_size_units 5 ("XB".toList)).1.mpr (by decide)

/-- Claim C9 fails as stated: the header test reads `line[0]` of the UNTRIMMED
line, so the whitespace-prefixed header line `" 3072 bytes"` is treated as a
file path (stored stripped, `"3072 bytes"`, in the current group) rather than
recognized as a header; were lines trimmed before the header test, this input
would produce the single triple `(/a, /b, 2)` instead of the three below. -/
theorem header_trim_counterexample :
    find_duplicates_parse ("2048 bytes\n/a\n/b\n 3072 bytes\n/c".toList) =
      [("/a".toList, "/b".toList, 2), ("/a".toList, "3072 bytes".toList, 2),
        ("/a".toList, "/c".toList, 2)] := by decide

/-- Claim C9 amended: blank-line detection and the stored path text do use the
trimmed line, but the header test examines the first character of the
untrimmed line; consequently a non-blank line beginning with a whitespace
character is always treated as a file path — its trimmed text is appended to
the current group — even when its trimmed content begins with a digit. -/
theorem line_classification_untrimmed (st : ParseState) (line : PyStr) (c : Char)
    (rest : PyStr) :
    (pyStrip line = [] → processLine st line = st) ∧
    (isPySpace c = true → pyStrip (c :: rest) ≠ [] →
      processLine st (c :: rest) =
        ⟨st.duplicates, st.current_group ++ [pyStrip (c :: rest)], st.current_size⟩) := by
  refine ⟨fun h => processLine_blank st h, fun hc hne => ?_⟩
  have hd : isDigitChar c = false := space_not_digit hc
  simp [processLine, hne, hd]

theorem line_classification_untrimmed_witness :
    (processLine ⟨[], [], 0⟩ ("   ".toList) = ⟨[], [], 0⟩) ∧
    processLine ⟨[], [], 0⟩ (' ' :: "3072 bytes".toList) =
      ⟨[], ["3072 bytes".toList], 0⟩ :=
  ⟨(line_classification_untrimmed ⟨[], [], 0⟩ ("   ".toList) ' ' []).1 (by decide),
    (line_classification_untrimmed ⟨[], [], 0⟩ [] ' ' ("3072 bytes".toList)).2
      (by decide) (by decide)⟩

/-- Claim C10 fails as stated on inputs that repeat a path: here the returned
list does contain the first element of the input (selected at its later,
third, occurrence, after `/a/f.txt` registered the canonical name). -/
theorem multi_save_first_element_counterexample :
    find_browser_multi_saves
        ["/a/f (1).txt".toList, "/a/f.txt".toList, "/a/f (1).txt".toList] =
      ["/a/f (1).txt".toList] := by decide

/-- Claim C10 amended: the returned list is a subsequence of the tail of the
input (the first position is never selected) consisting only of paths whose
filename matches the multi-save pattern; a path equal to the first element can
appear in the result only through a later duplicate occurrence in the input.
For the deletion loop's two-element input `[original, duplicate]` with
`original ≠ duplicate`, the triple's original path is therefore never
selected for deletion. -/
theorem multi_save_subsequence_tail :
    (∀ paths : List PyStr,
      (find_browser_multi_saves paths).Sublist paths.tail ∧
      ∀ p ∈ find_browser_multi_saves paths, (multiSaveSplit (baseName p)).isSome = true) ∧
    (∀ a b : PyStr, a ≠ b → a ∉ find_browser_multi_saves [a, b]) := by
  refine ⟨fun paths => ⟨find_browser_multi_saves_sublist_tail paths,
    fun p hp => mem_fbmsGo_matches _ _ p hp⟩, ?_⟩
  intro a b hab hmem
  have h2 := (find_browser_multi_saves_sublist_tail [a, b]).subset hmem
  simp at h2
  exact hab h2

theorem multi_save_subsequence_tail_witness :
    ("/a/f.txt".toList ≠ "/a/f (1).txt".toList) ∧
    "/a/f.txt".toList ∉
      find_browser_multi_saves ["/a/f.txt".toList, "/a/f (1).txt".toList] :=
  ⟨by decide, multi_save_subsequence_tail.2 _ _ (by decide)⟩
